import Mathlib

/-!
Shallow embedding of the TAIFEX crawler's parsing core
(`crawler/fut_contracts.py` v7.0 and `crawler/pc_ratio.py` v1.4),
with theorems settling the specification claims about it.

Text processing is modelled over `List Char` (a Lean `String` is a
structure wrapping such a list), so every definition is executable and
closed instances evaluate by `decide` / `rfl`.

Modelling conventions, noted once here:
* Python's `re` class `\d` matches every Unicode decimal digit; the pages
  and claims only exercise ASCII digits, so the embedding uses
  `Char.isDigit`.
* Python's `str.strip()` removes Unicode whitespace; the embedding uses
  `Char.isWhitespace` (space, tab, CR, LF), which covers every input the
  claims exercise.
-/

namespace Taifex

instance {ε α : Type} [DecidableEq ε] [DecidableEq α] : DecidableEq (Except ε α) := fun a b =>
  match a, b with
  | .ok x, .ok y => if h : x = y then .isTrue (by simp [h]) else .isFalse (by simp [h])
  | .error x, .error y => if h : x = y then .isTrue (by simp [h]) else .isFalse (by simp [h])
  | .ok _, .error _ => .isFalse (by simp)
  | .error _, .ok _ => .isFalse (by simp)

/-! ### Generic character/list helpers (Python string primitives) -/

/-- Numeric value of an ASCII digit character. -/
def digVal (c : Char) : Nat := c.toNat - 48

/-- Decimal value of a digit string, most significant first. -/
def digitsToNat (cs : List Char) : Nat := cs.foldl (fun a c => 10 * a + digVal c) 0

/-- Python `str.strip()`: drop leading and trailing whitespace. -/
def stripWs (cs : List Char) : List Char :=
  ((cs.dropWhile Char.isWhitespace).reverse.dropWhile Char.isWhitespace).reverse

/-- `listLeads n h` holds when `n` is an initial segment of `h`. -/
def listLeads : List Char → List Char → Bool
  | [], _ => true
  | _ :: _, [] => false
  | a :: as, b :: bs => a == b && listLeads as bs

/-- Python's `needle in hay` substring test. -/
def containsSeq (needle : List Char) : List Char → Bool
  | [] => needle.isEmpty
  | c :: rest => listLeads needle (c :: rest) || containsSeq needle rest

/-- Split a character list at every occurrence of `sep`
(Python `str.split(sep)`: empty fields are kept). -/
def splitOnCharAux (sep : Char) : List Char → List Char → List (List Char)
  | [], acc => [acc.reverse]
  | c :: rest, acc =>
    if c == sep then acc.reverse :: splitOnCharAux sep rest []
    else splitOnCharAux sep rest (c :: acc)

def splitOnChar (sep : Char) (cs : List Char) : List (List Char) :=
  splitOnCharAux sep cs []

/-- Python `str.split()` with no argument: split on whitespace runs,
dropping empty fields. -/
def wsSplitAux : List Char → List Char → List (List Char)
  | [], acc => if acc = [] then [] else [acc.reverse]
  | c :: rest, acc =>
    if c.isWhitespace then
      (if acc = [] then wsSplitAux rest [] else acc.reverse :: wsSplitAux rest [])
    else wsSplitAux rest (c :: acc)

def wsSplit (cs : List Char) : List (List Char) := wsSplitAux cs []

/-! ### `fut_contracts._clean_int` -/

/-- The characters kept by `re.sub(r"[^\d\-]", "", txt)`: decimal digits
and the ASCII hyphen-minus.  Note that the typographic minus U+2212 and
the full-width minus U+FF0D are *not* kept. -/
def keepNumChar (c : Char) : Bool := c.isDigit || c == '-'

/-- `re.sub(r"[^\d\-]", "", txt)` as a filter. -/
def cleanedCs (cs : List Char) : List Char := cs.filter keepNumChar

/-- Python `int(s)` restricted to the alphabet `{digits, '-'}` that the
cleaned string can contain: an optional single leading `'-'` followed by
at least one digit; anything else raises `ValueError` (here: `none`). -/
def pyIntOfCs : List Char → Option Int
  | [] => none
  | '-' :: rest =>
    if rest ≠ [] ∧ rest.all Char.isDigit then some (-(digitsToNat rest : Int)) else none
  | c :: rest =>
    if (c :: rest).all Char.isDigit then some ((digitsToNat (c :: rest) : Int)) else none

/-- `crawler/fut_contracts.py::_clean_int`.  Empty input returns `0`;
otherwise the input is stripped, every character that is neither a
decimal digit nor an ASCII `'-'` is removed, an empty residue is
replaced by `"0"`, and the residue is fed to `int()`.  `none` models the
`ValueError` that `int()` raises on residues such as `"-"` or `"1-2"`. -/
def cleanInt (txt : String) : Option Int :=
  if txt.data = [] then some 0
  else
    let cleaned := cleanedCs (stripWs txt.data)
    let cleaned := if cleaned = [] then ['0'] else cleaned
    pyIntOfCs cleaned

/-! ### Futures page model

`parse_html` consumes the document through four BeautifulSoup queries:
the raw text (date search), the product cells
`td.left_tit[rowspan="3"]` with their `div[align=center]` label, each
row's first identity cell `td.left_tit[scope=row]`, and each row's
`td[align=right][nowrap]` cells whose payload is the text of an inner
`font` tag.  A `Row` records exactly those observables for one `tr`;
a `Page` is the raw text plus the `tr` sequence in document order. -/

structure Row where
  /-- `tr` carries `class="12bk"` (the category rows `find_next` walks). -/
  is12bk : Bool := false
  /-- the row contains a `td.left_tit[rowspan="3"]` product cell. -/
  prodTd : Bool := false
  /-- text of that cell's `div[align=center]`, when the div exists. -/
  prodName : Option String := none
  /-- text of the row's first `td.left_tit[scope=row]` identity cell. -/
  identity : Option String := none
  /-- the row's `td[align=right][nowrap]` cells: `some s` when the cell
  holds a `font` tag with text `s`, `none` when it has no `font` tag. -/
  cells : List (Option String) := []
  deriving DecidableEq, Repr, Inhabited

structure Page where
  html : String
  rows : List Row
  deriving DecidableEq, Repr, Inhabited

structure Date where
  year : Nat
  month : Nat
  day : Nat
  deriving DecidableEq, Repr, Inhabited

/-- Per-product accumulator of `parse_html` (the dict initialised with
four zero fields). -/
structure Vals where
  prop_net : Int
  itf_net : Int
  foreign_net : Int
  retail_net : Int
  deriving DecidableEq, Repr, Inhabited

/-- One emitted `fut_contracts` document. -/
structure Doc where
  date : Date
  product : String
  prop_net : Int
  itf_net : Int
  foreign_net : Int
  retail_net : Int
  deriving DecidableEq, Repr, Inhabited

/-- The exceptions `parse_html` can raise: the two explicit
`RuntimeError`s, `ValueError` from `strptime`, `AttributeError` from
calling `find_next` on `None`, and `ValueError` from `int()`. -/
inductive ParseErr where
  | missingDate
  | badDate
  | noProductCells
  | attrNone
  | badNumber
  deriving DecidableEq, Repr

/-- The `TARGETS` dict: display name → product code. -/
def targetCode (nm : String) : Option String :=
  if nm = "小型臺指期貨" then some "mtx"
  else if nm = "微型臺指期貨" then some "imtx"
  else none

/-! ### Date search: `re.search(r"日期(\d{4}/\d{2}/\d{2})", html)` -/

/-- Try to match the date pattern at the head of `cs`, returning the
captured `YYYY/MM/DD` characters. -/
def matchDateAt : List Char → Option (List Char)
  | '日' :: '期' :: a :: b :: c :: d :: '/' :: e :: f :: '/' :: g :: h :: _ =>
    if [a, b, c, d, e, f, g, h].all Char.isDigit then
      some [a, b, c, d, '/', e, f, '/', g, h]
    else none
  | _ => none

/-- Leftmost match of the date pattern, as `re.search` finds it. -/
def findDateCs : List Char → Option (List Char)
  | [] => none
  | c :: rest =>
    match matchDateAt (c :: rest) with
    | some r => some r
    | none => findDateCs rest

/-- Gregorian leap-year rule, as `datetime` uses it. -/
def isLeap (y : Nat) : Bool := y % 4 = 0 && (y % 100 ≠ 0 || y % 400 = 0)

def daysInMonth (y m : Nat) : Nat :=
  if m = 1 ∨ m = 3 ∨ m = 5 ∨ m = 7 ∨ m = 8 ∨ m = 10 ∨ m = 12 then 31
  else if m = 4 ∨ m = 6 ∨ m = 9 ∨ m = 11 then 30
  else if isLeap y then 29 else 28

/-- `datetime.strptime(tok, "%Y/%m/%d")` on the ten captured characters:
fails (`ValueError`) unless the fields form a real calendar date with
year ≥ 1. -/
def strptimeYmdCs : List Char → Option Date
  | [a, b, c, d, '/', e, f, '/', g, h] =>
    let y := digitsToNat [a, b, c, d]
    let m := digitsToNat [e, f]
    let dd := digitsToNat [g, h]
    if 1 ≤ y ∧ 1 ≤ m ∧ m ≤ 12 ∧ 1 ≤ dd ∧ dd ≤ daysInMonth y m then
      some ⟨y, m, dd⟩
    else none
  | _ => none

/-! ### Row-level extraction (`parse_html`'s three category blocks) -/

/-- Whether the row's identity cell exists and contains `label` as a
substring (Python `identity_cell and label in identity_cell.text`). -/
def identityHas (r : Row) (label : String) : Bool :=
  match r.identity with
  | some t => containsSeq label.data t.data
  | none => false

/-- The cell `parse_html` reads a category's net from: it requires at
least 13 `td[align=right][nowrap]` cells and takes the one at index 12
(`all_cells[12]`, the 13th), whose payload is its `font` text if any. -/
def codeSelectNet (cells : List (Option String)) : Option String :=
  if 13 ≤ cells.length then cells.getD 12 none else none

/-- The net value the source recovers from a row's cells: the index-12
cell's font text fed through `_clean_int`. -/
def codeFieldSelect (cells : List (Option String)) : Option Int :=
  (codeSelectNet cells).bind fun s => cleanInt s

/-- One category block of `parse_html`: if the identity cell matches the
label and the selected cell has a `font` tag, the value is
`_clean_int(font.text)` (whose `ValueError` aborts the whole parse);
in every other case the block leaves the accumulator untouched
(`ok none`). -/
def extractCat (r : Row) (label : String) : Except ParseErr (Option Int) :=
  if identityHas r label then
    match codeSelectNet r.cells with
    | some s =>
      match cleanInt s with
      | some v => .ok (some v)
      | none => .error .badNumber
    | none => .ok none
  else .ok none

/-- Index of the first row strictly after position `i` whose `tr` has
class `12bk` (BeautifulSoup `find_next("tr", class_="12bk")`). -/
def findNext12bkAux : List Row → Nat → Option Nat
  | [], _ => none
  | r :: rest, j => if r.is12bk then some j else findNext12bkAux rest (j + 1)

def findNext12bk (rows : List Row) (i : Nat) : Option Nat :=
  findNext12bkAux (rows.drop (i + 1)) (i + 1)

/-- The foreign-institution block.  After the trust block the source
runs `current_row = current_row.find_next(...)` a second time and only
then tests `if current_row:`, so a missing row here is tolerated
(`foreign_net` stays 0), unlike the first `find_next`. -/
def extractForeign (rows : List Row) (j : Nat) : Except ParseErr Int :=
  match findNext12bk rows j with
  | none => .ok 0
  | some k =>
    match extractCat (rows.getD k default) "外資" with
    | .error e => .error e
    | .ok f? => .ok (f?.getD 0)

/-- Processing of one product cell (the body of the
`for product_cell in product_cells` loop).  `ok none` models Python's
`continue`; `.error .attrNone` models the `AttributeError` raised when
the first `find_next` returns `None` and `find_next` is then called on
it unconditionally. -/
def processProduct (rows : List Row) (i : Nat) : Except ParseErr (Option (String × Vals)) :=
  match rows[i]? with
  | none => .ok none
  | some r =>
    match r.prodName with
    | none => .ok none
    | some nm0 =>
      match targetCode (String.mk (stripWs nm0.data)) with
      | none => .ok none
      | some _ =>
        match extractCat r "自營商" with
        | .error e => .error e
        | .ok prop? =>
          match findNext12bk rows i with
          | none => .error .attrNone
          | some j =>
            match extractCat (rows.getD j default) "投信" with
            | .error e => .error e
            | .ok itf? =>
              match extractForeign rows j with
              | .error e => .error e
              | .ok forv =>
                .ok (some (String.mk (stripWs nm0.data),
                  ⟨prop?.getD 0, itf?.getD 0, forv,
                   -(prop?.getD 0 + itf?.getD 0 + forv)⟩))

/-- Python-dict insertion: an existing key keeps its position and gets
the new value, a new key is appended. -/
def dictInsert (k : String) (v : Vals) : List (String × Vals) → List (String × Vals)
  | [] => [(k, v)]
  | kv :: rest =>
    if kv.1 = k then (kv.1, v) :: rest else kv :: dictInsert k v rest

/-- The whole product-cell loop, threading the `result` dict. -/
def processAll (rows : List Row) : List Nat → List (String × Vals) →
    Except ParseErr (List (String × Vals))
  | [], acc => .ok acc
  | i :: rest, acc =>
    match processProduct rows i with
    | .error e => .error e
    | .ok none => processAll rows rest acc
    | .ok (some (nm, v)) => processAll rows rest (dictInsert nm v acc)

/-- Positions of the rows holding a `td.left_tit[rowspan="3"]` product
cell, in document order (`soup.find_all`). -/
def productIndices (rows : List Row) : List Nat :=
  (List.range rows.length).filter fun i =>
    match rows[i]? with
    | some r => r.prodTd
    | none => false

/-- Document assembly: the final loop appends one document per `result`
entry, with `product` looked up as `TARGETS[pname]`.  Keys of `result`
are always `TARGETS` keys, so the lookup cannot fail; `getD ""` is the
unreachable default. -/
def mkDoc (d : Date) (nm : String) (v : Vals) : Doc :=
  { date := d, product := (targetCode nm).getD "",
    prop_net := v.prop_net, itf_net := v.itf_net,
    foreign_net := v.foreign_net, retail_net := v.retail_net }

/-- `crawler/fut_contracts.py::parse_html`. -/
def parseHtml (p : Page) : Except ParseErr (Date × List Doc) :=
  match findDateCs p.html.data with
  | none => .error .missingDate
  | some tok =>
    match strptimeYmdCs tok with
    | none => .error .badDate
    | some d =>
      if productIndices p.rows = [] then .error .noProductCells
      else
        match processAll p.rows (productIndices p.rows) [] with
        | .error e => .error e
        | .ok result => .ok (d, result.map fun nv => mkDoc d nv.1 nv.2)

/-! ### The ratio crawler (`crawler/pc_ratio.py`), CSV path

`parse` normalizes what `_parse_csv` returns: `to_datetime` on the date
column and `to_numeric` on the six value columns.  The embedding
composes the two stages into one pipeline over the raw text, keeping
pandas' missing-value leniency: `read_csv` turns an empty field or one
of its default NA tokens into NaN, NaN passes `to_numeric` unchanged,
and the python engine NaN-pads a row that is shorter than the first row
(only a longer row raises).  Numeric columns therefore carry
NaN-or-number values; a field that is neither missing nor a signed
decimal numeral is the one that raises. -/

/-- The errors of `_parse_csv`/`parse`: `ValueError("CSV 無日期列")`,
`IndexError` from `l.split(",")[0].split()[0]` on a line whose first
comma-field is blank, the pandas parser error on ragged rows,
`ValueError("CSV 欄位數異常")`, and the `to_datetime`/`to_numeric`
coercion failures. -/
inductive CsvErr where
  | noDateLine
  | indexErr
  | parserErr
  | badShape
  | csvBadDate
  | badNum
  deriving DecidableEq, Repr

/-- Exact value of a decimal numeral, carried as an unreduced fraction
`num / den` with `den` a power of ten.  No claim depends on numeric
identities of the parsed values — only on whether coercion succeeds —
so the exact-fraction carrier is adequate and keeps every definition
kernel-computable. -/
structure PyNum where
  num : Int
  den : Nat
  deriving DecidableEq, Repr

/-- A value in one of the six numeric columns after
`read_csv` + `to_numeric`: either the float NaN that a missing field
became in `read_csv`, or a parsed number. -/
inductive NumVal where
  | nan
  | num (q : PyNum)
  deriving DecidableEq, Repr

/-- One normalized ratio record (row of the returned DataFrame).  A
numeric field can be NaN (the record is then stored with that NaN). -/
structure RatioRec where
  date : Date
  put_volume : NumVal
  call_volume : NumVal
  pc_volume_ratio : NumVal
  put_oi : NumVal
  call_oi : NumVal
  pc_oi_ratio : NumVal
  deriving DecidableEq, Repr

/-- `text.lstrip` of the BOM: drop every leading U+FEFF character. -/
def stripBom (cs : List Char) : List Char := cs.dropWhile (fun c => c == '\uFEFF')

/-- BOM strip, splitlines, per-line strip, drop blank lines.
(`splitlines` also breaks on `\r`; a stray `\r` before `\n` is removed
by the per-line strip, which is the only way it occurs here.) -/
def prepLines (cs : List Char) : List (List Char) :=
  ((splitOnChar '\n' (stripBom cs)).map stripWs).filter fun l => l ≠ []

/-- `DATE_RE = ^20\d{2}/\d{1,2}/\d{1,2}$` as a full-string match. -/
def dateReMatch (cs : List Char) : Bool :=
  match cs with
  | '2' :: '0' :: a :: b :: '/' :: rest =>
    a.isDigit && b.isDigit &&
      (match splitOnChar '/' rest with
       | [m, d] =>
         (m.length = 1 || m.length = 2) && m.all Char.isDigit &&
           ((d.length = 1 || d.length = 2) && d.all Char.isDigit)
       | _ => false)
  | _ => false

/-- The `next(i for i,l in enumerate(lines) if DATE_RE.match(...))`
scan: returns the line suffix starting at the first line whose first
whitespace-token of the first comma-field matches `DATE_RE`.  A line
whose first comma-field has no whitespace-token raises `IndexError`
before later lines are examined. -/
def locateFrom : List (List Char) → Except CsvErr (List (List Char))
  | [] => .error .noDateLine
  | l :: rest =>
    match wsSplit ((splitOnChar ',' l).headD []) with
    | [] => .error .indexErr
    | t :: _ => if dateReMatch t then .ok (l :: rest) else locateFrom rest

inductive Sep where
  | comma
  | ws
  deriving DecidableEq, Repr

/-- `sep = "," if "," in sample else r"\s+"`. -/
def sepOf (sample : List Char) : Sep :=
  if sample.contains ',' then .comma else .ws

/-- Split one data line by the chosen separator.  The lines were already
stripped, so the `\s+` regex split coincides with `wsSplit`. -/
def splitRow (s : Sep) (l : List Char) : List (List Char) :=
  match s with
  | .comma => splitOnChar ',' l
  | .ws => wsSplit l

/-- NaN-padding of a short row: `read_csv`'s python engine fills the
missing trailing fields with NaN; an appended empty token is read as
missing by the field coercion below, which models exactly that. -/
def padRow (n : Nat) (r : List (List Char)) : List (List Char) :=
  r ++ List.replicate (n - r.length) []

/-- `pd.read_csv` on the located lines: tokenize each line; the python
engine raises `ParserError` on a row with *more* fields than the first
row and NaN-pads a row with fewer. -/
def readCsv (sep : Sep) (dataLines : List (List Char)) :
    Except CsvErr (List (List (List Char))) :=
  if (dataLines.map (splitRow sep)).all
      (fun r => r.length ≤ ((dataLines.map (splitRow sep)).headD []).length) then
    .ok ((dataLines.map (splitRow sep)).map
      (padRow ((dataLines.map (splitRow sep)).headD []).length))
  else .error .parserErr

/-- Unsigned decimal numeral, with an optional fractional part
(`to_numeric`'s accepted forms as exercised by this table; exponent and
bare-dot forms do not occur). -/
def parseUnsignedDec (t : List Char) : Option PyNum :=
  match splitOnChar '.' t with
  | [ip] =>
    if ip ≠ [] ∧ ip.all Char.isDigit then some ⟨(digitsToNat ip : Int), 1⟩ else none
  | [ip, fp] =>
    if ip ≠ [] ∧ fp ≠ [] ∧ ip.all Char.isDigit ∧ fp.all Char.isDigit then
      some ⟨(digitsToNat ip * 10 ^ fp.length + digitsToNat fp : Nat), 10 ^ fp.length⟩
    else none
  | _ => none

/-- `read_csv`'s default `na_values`: a field exactly equal to one of
these strings is read as NaN. -/
def naTokens : List String :=
  ["", "#N/A", "#N/A N/A", "#NA", "-1.#IND", "-1.#QNAN", "-NaN", "-nan",
   "1.#IND", "1.#QNAN", "<NA>", "N/A", "NA", "NULL", "NaN", "None",
   "n/a", "nan", "null"]

def naToken (cs : List Char) : Bool := naTokens.any fun s => s.data == cs

/-- Numeric coercion of one field, as the composition
`read_csv` + `to_numeric` performs it: an NA token becomes NaN in
`read_csv` and then passes `to_numeric` untouched; otherwise the field
is parsed as a signed decimal after `thousands=","` comma removal and
whitespace trimming (`to_numeric` tolerates surrounding whitespace);
anything else raises (`none`). -/
def pyToNumeric (cs : List Char) : Option NumVal :=
  if naToken cs then some .nan
  else
    match (stripWs cs).filter fun c => c ≠ ',' with
    | '-' :: rest => (parseUnsignedDec rest).map fun q => .num ⟨-q.num, q.den⟩
    | '+' :: rest => (parseUnsignedDec rest).map .num
    | t => (parseUnsignedDec t).map .num

/-- `pd.to_datetime(col, format="%Y/%m/%d")` on one field: year of at
most four digits, month/day of at most two, forming a real calendar
date. -/
def parseYmdFlex (cs : List Char) : Option Date :=
  match splitOnChar '/' cs with
  | [ys, ms, ds] =>
    if ys ≠ [] ∧ ys.length ≤ 4 ∧ ys.all Char.isDigit ∧
        ms ≠ [] ∧ ms.length ≤ 2 ∧ ms.all Char.isDigit ∧
        ds ≠ [] ∧ ds.length ≤ 2 ∧ ds.all Char.isDigit then
      let y := digitsToNat ys
      let m := digitsToNat ms
      let d := digitsToNat ds
      if 1 ≤ y ∧ 1 ≤ m ∧ m ≤ 12 ∧ 1 ≤ d ∧ d ≤ daysInMonth y m then
        some ⟨y, m, d⟩
      else none
    else none
  | _ => none

/-- Date coercion of one field (`to_datetime`).  Scope note: the
*located* line's date field is guaranteed non-missing by `DATE_RE`, and
no claim touches rows dated NaT, so the embedding does not carry a NaT
date (an NA date token on a later row, which pandas would turn into
NaT, is folded into this error). -/
def reqDate (cs : List Char) : Except CsvErr Date :=
  match parseYmdFlex cs with
  | some d => .ok d
  | none => .error .csvBadDate

def reqNum (cs : List Char) : Except CsvErr NumVal :=
  match pyToNumeric cs with
  | some q => .ok q
  | none => .error .badNum

/-- Normalization of one 7-field row into a `RatioRec`.  (The source
normalizes column-wise — all dates, then the value columns left to
right; which of several bad fields raises first differs, but whether
the whole parse fails does not.) -/
def normalizeRow (row : List (List Char)) : Except CsvErr RatioRec :=
  match row with
  | [d0, c1, c2, c3, c4, c5, c6] =>
    match reqDate d0 with
    | .error e => .error e
    | .ok dt =>
      match reqNum c1 with
      | .error e => .error e
      | .ok v1 =>
        match reqNum c2 with
        | .error e => .error e
        | .ok v2 =>
          match reqNum c3 with
          | .error e => .error e
          | .ok v3 =>
            match reqNum c4 with
            | .error e => .error e
            | .ok v4 =>
              match reqNum c5 with
              | .error e => .error e
              | .ok v5 =>
                match reqNum c6 with
                | .error e => .error e
                | .ok v6 => .ok ⟨dt, v1, v2, v3, v4, v5, v6⟩
  | _ => .error .badShape

/-- `mapM` over `Except`, written recursively for easy induction. -/
def mapEx (f : α → Except ε β) : List α → Except ε (List β)
  | [] => .ok []
  | x :: xs =>
    match f x with
    | .error e => .error e
    | .ok y =>
      match mapEx f xs with
      | .error e => .error e
      | .ok ys => .ok (y :: ys)

/-- The tail of `_parse_csv` after the date line has been located
(delimiter sniffing on the sample line, `read_csv`, the seven-column
check) composed with the normalization in `parse`. -/
def csvStage2 (dataLines : List (List Char)) : Except CsvErr (List RatioRec) :=
  match readCsv (sepOf (dataLines.headD [])) dataLines with
  | .error e => .error e
  | .ok rows =>
    if (rows.headD []).length = 7 then mapEx normalizeRow rows
    else .error .badShape

/-- `_parse_csv` followed by the normalization in `parse` (CSV branch). -/
def parseCsvPipeline (text : List Char) : Except CsvErr (List RatioRec) :=
  match locateFrom (prepLines text) with
  | .error e => .error e
  | .ok dataLines => csvStage2 dataLines

/-! ### `pc_ratio.fetch`: the neutral-exit decision -/

/-- Lexicographic date order (`datetime.date` comparison). -/
def dateLt (a b : Date) : Bool :=
  a.year < b.year ∨ (a.year = b.year ∧
    (a.month < b.month ∨ (a.month = b.month ∧ a.day < b.day)))

/-- `df["date"].dt.date.max()`. -/
def latestDate (recs : List RatioRec) : Date :=
  recs.foldl (fun acc r => if dateLt acc r.date then r.date else acc) ⟨1, 1, 1⟩

/-- How a `fetch` run ends after a successful parse: `sys.exit(75)`
(writing nothing), or completion with the list of upserted records. -/
inductive FetchOutcome where
  | neutralExit (code : Nat)
  | completed (written : List RatioRec)
  deriving DecidableEq, Repr

/-- The exit status of `sys.exit(75)` in `fetch`. -/
def neutralExitCode : Nat := 75

/-- The interpreter's exit status for an uncaught exception (the hard
failure path of the crawlers, e.g. `sys.exit(1)` in
`fut_contracts.__main__`). -/
def hardFailureCode : Nat := 1

/-- The tail of `pc_ratio.fetch` after `parse` has produced `recs`:
compare the newest parsed date with today's Taiwan date; if stale,
terminate with the neutral exit status and write nothing, otherwise
upsert (when requested) and return. -/
def fetchAfterParse (recs : List RatioRec) (today : Date) (upsert : Bool) : FetchOutcome :=
  if dateLt (latestDate recs) today then .neutralExit neutralExitCode
  else .completed (if upsert then recs else [])

/-- Records a `FetchOutcome` wrote to the store. -/
def writtenOf : FetchOutcome → List RatioRec
  | .neutralExit _ => []
  | .completed w => w

/-! ### Concrete pages used by counterexamples and witnesses -/

/-- Thirteen right-aligned cells whose 13th (index 12) holds `s`. -/
def cells13 (s : String) : List (Option String) :=
  List.replicate 12 (some "1") ++ [some s]

/-- Declaring row of the small-contract product, with a proprietary-desk
identity cell. -/
def exRow1 : Row :=
  { is12bk := true, prodTd := true, prodName := some "小型臺指期貨",
    identity := some "自營商", cells := cells13 "100" }

/-- Trust (investment-trust) category row. -/
def exRow2 : Row :=
  { is12bk := true, identity := some "投信", cells := cells13 "50" }

/-- A third `12bk` row whose identity is not the foreign institution:
the page carries only 2 of the 3 required categories. -/
def exRow3 : Row :=
  { is12bk := true, identity := some "其他", cells := cells13 "999" }

/-- A page with a date, a product cell, and only the proprietary-desk
and trust category rows. -/
def twoCatPage : Page :=
  { html := "日期2025/04/18", rows := [exRow1, exRow2, exRow3] }

/-- The emitted document of `twoCatPage`. -/
def twoCatDoc : Doc :=
  { date := ⟨2025, 4, 18⟩, product := "mtx", prop_net := 100,
    itf_net := 50, foreign_net := 0, retail_net := -150 }

/-- A page whose text carries no labeled date token. -/
def noDatePage : Page :=
  { html := "三大法人 2025/04/18", rows := [exRow1, exRow2, exRow3] }

/-- A row of fifteen numeric font cells `1 … 15`: index 12 holds `"13"`,
while the second-to-last element of the numeric run holds `"14"`. -/
def c3cells : List (Option String) :=
  [some "1", some "2", some "3", some "4", some "5", some "6", some "7",
   some "8", some "9", some "10", some "11", some "12", some "13",
   some "14", some "15"]

/-- A short row (one numeric cell) with a matching identity label. -/
def shortRow : Row := { identity := some "自營商", cells := [some "1"] }

/-- A declaring row for a product outside `TARGETS`. -/
def oddProductRow : Row := { prodTd := true, prodName := some "黃金期貨" }

/-- A well-formed single-line ratio CSV. -/
def goodCsv : List Char :=
  ("Put/Call ratio\n2025/04/18,100,200,0.5,300,400,0.75\n").data

/-- A ratio CSV whose located data line carries the NA token in its
`call_volume` field. -/
def naCsv : List Char :=
  ("Put/Call ratio\n2025/04/18,100,NA,0.5,300,400,0.75\n").data

/-- One parsed ratio record used by the fetch witness. -/
def wRatioRec : RatioRec :=
  ⟨⟨2025, 4, 17⟩, .num ⟨100, 1⟩, .num ⟨200, 1⟩, .num ⟨5, 10⟩,
   .num ⟨300, 1⟩, .num ⟨400, 1⟩, .num ⟨75, 100⟩⟩

/-! ### Field extraction as the spec words it (for the refinement
comparison of the field-extractor claim) -/

/-- Modelled from the spec (§4.3 steps 1–2), for comparison with
`codeFieldSelect`: coerce a cell to a signed integer after stripping
thousands separators and internal spaces and folding the typographic
(U+2212) and full-width (U+FF0D) minus glyphs to the ASCII minus;
non-numeric cells are discarded. -/
def specNumeric (cs : List Char) : Option Int :=
  let t := (cs.filter fun c => ¬(c = ',' ∨ c.isWhitespace)).map
    fun c => if c = '−' ∨ c = '－' then '-' else c
  match t with
  | '-' :: rest =>
    if rest ≠ [] ∧ rest.all Char.isDigit then some (-(digitsToNat rest : Int)) else none
  | ds => if ds ≠ [] ∧ ds.all Char.isDigit then some ((digitsToNat ds : Int)) else none

/-- Modelled from the spec (§4.3 steps 2–4), for comparison with
`codeFieldSelect`: discard non-numeric cells, then select the value at
the second-to-last position of the numeric run, requiring at least two
numeric values. -/
def specFieldSelect (cells : List (Option String)) : Option Int :=
  let nums := cells.filterMap fun c? => c?.bind fun s => specNumeric s.data
  if 2 ≤ nums.length then nums.get? (nums.length - 2) else none

/-! ## Supporting lemmas -/

lemma ws_not_keep {c : Char} (h : c.isWhitespace = true) : keepNumChar c = false := by
  simp only [Char.isWhitespace, Bool.or_eq_true, decide_eq_true_eq] at h
  rcases h with ((h | h) | h) | h <;> subst h <;> decide

lemma filter_dropWhile_ws (l : List Char) :
    (l.dropWhile Char.isWhitespace).filter keepNumChar = l.filter keepNumChar := by
  induction l with
  | nil => rfl
  | cons c t ih =>
    by_cases h : c.isWhitespace
    · rw [List.dropWhile_cons_of_pos h, ih, List.filter_cons_of_neg]
      simp [ws_not_keep h]
    · rw [List.dropWhile_cons_of_neg h]

lemma filter_stripWs (l : List Char) :
    (stripWs l).filter keepNumChar = l.filter keepNumChar := by
  unfold stripWs
  rw [List.filter_reverse, filter_dropWhile_ws, List.filter_reverse,
    filter_dropWhile_ws, List.reverse_reverse]

/-- `_clean_int` on a nonempty input reduces to `int()` of the filtered
characters (with the empty residue replaced by `"0"`). -/
lemma cleanInt_eq_of_ne (s : String) (h : s.data ≠ []) :
    cleanInt s =
      pyIntOfCs (if s.data.filter keepNumChar = [] then ['0']
                 else s.data.filter keepNumChar) := by
  unfold cleanInt cleanedCs
  rw [if_neg h, filter_stripWs]

/-! ## Claim C4 — sign-glyph normalization -/

/-- C4 counterexample: the typographic minus U+2212 is stripped by
`_clean_int`, so `"−123"` parses to `123` while the ASCII-minus
`"-123"` parses to `-123`; the two otherwise identical values do *not*
parse to the same signed integer. -/
theorem c4_counterexample :
    cleanInt "−123" = some 123 ∧ cleanInt "-123" = some (-123) ∧
      cleanInt "−123" ≠ cleanInt "-123" := by decide

/-- C4 amended: `_clean_int` erases a typographic minus rather than
honouring it — prefixing a cell text with U+2212 never changes the
parse result, so the sign is lost and only the ASCII hyphen-minus acts
as a sign. -/
theorem c4_amended_typographic_minus_erased (s : String) :
    cleanInt (String.mk ('−' :: s.data)) = cleanInt s := by
  have hkeep : keepNumChar '−' = false := by decide
  have hne : (String.mk ('−' :: s.data)).data ≠ [] := by simp
  rw [cleanInt_eq_of_ne _ hne]
  show pyIntOfCs (if ('−' :: s.data).filter keepNumChar = [] then _ else _) = _
  rw [List.filter_cons_of_neg (by simp [hkeep])]
  by_cases hs : s.data = []
  · rw [hs]
    unfold cleanInt
    rw [if_pos hs]
    rfl
  · rw [cleanInt_eq_of_ne s hs]

/-! ## Claim C10 — non-numeric cells coerce to zero -/

/-- C10: a cell text that contains no decimal digit and no ASCII hyphen
(in particular an empty or whitespace-only cell) is coerced by
`_clean_int` to the integer `0` without raising, indistinguishable from
a genuine zero net position. -/
theorem c10_nonnumeric_is_zero (s : String)
    (h : ∀ c ∈ s.data, c.isDigit = false ∧ c ≠ '-') :
    cleanInt s = some 0 := by
  by_cases hs : s.data = []
  · unfold cleanInt
    rw [if_pos hs]
  · rw [cleanInt_eq_of_ne s hs]
    have hfil : s.data.filter keepNumChar = [] := by
      apply List.filter_eq_nil_iff.mpr
      intro c hc
      have := h c hc
      simp [keepNumChar, this.1, this.2]
    rw [if_pos hfil]
    rfl

/-- C10 witness at the cosmetic cell text `"n/a "`. -/
theorem c10_witness : cleanInt "n/a " = some 0 :=
  c10_nonnumeric_is_zero "n/a " (by decide)

/-! ## Claim C3 — field selection position -/

/-- C3 counterexample: on a row of fifteen numeric cells the source's
extractor (`all_cells[12]` after a `len >= 13` guard) returns the 13th
value, while the spec's trailing-scan algorithm (second-to-last of the
numeric run) returns the 14th — the code does not implement the claimed
selection. -/
theorem c3_counterexample :
    codeFieldSelect c3cells = some 13 ∧ specFieldSelect c3cells = some 14 ∧
      codeFieldSelect c3cells ≠ specFieldSelect c3cells := by decide

/-- C3 amended: the extractor requires at least 13 right-aligned cells
and reads the fixed index 12 (the 13th cell), feeding its font text to
`_clean_int`; it performs no trailing scan over a filtered numeric run,
and a row failing the shape check yields no observation (the enclosing
record's category then keeps its default 0). -/
theorem c3_amended_fixed_index (cells : List (Option String)) (v : Int)
    (h : codeFieldSelect cells = some v) :
    13 ≤ cells.length ∧ ∃ s, cells.getD 12 none = some s ∧ cleanInt s = some v := by
  unfold codeFieldSelect codeSelectNet at h
  by_cases hl : 13 ≤ cells.length
  · rw [if_pos hl] at h
    cases hc : cells.getD 12 none with
    | none => rw [hc] at h; cases h
    | some s =>
      rw [hc] at h
      exact ⟨hl, s, rfl, h⟩
  · rw [if_neg hl] at h
    cases h

/-- C3 amended witness, at the fifteen-cell row: the extracted value is
exactly the 13th cell's text through `_clean_int`. -/
theorem c3_witness :
    13 ≤ c3cells.length ∧
      ∃ s, c3cells.getD 12 none = some s ∧ cleanInt s = some 13 :=
  c3_amended_fixed_index c3cells 13 (by decide)

/-! ## Claim C8 — row-skip safety -/

/-- C8: a category block applied to a row with fewer than 13
right-aligned cells, or whose identity cell does not match the
category's label, records nothing and raises nothing; and the
product-cell loop body applied to a row that declares no tracked
product (no name div, or a name outside `TARGETS`) likewise skips
silently. -/
theorem c8_row_skip_safety :
    (∀ (r : Row) (label : String),
        r.cells.length < 13 ∨ identityHas r label = false →
        extractCat r label = .ok none) ∧
    (∀ (rows : List Row) (i : Nat),
        (∀ r, rows[i]? = some r →
          r.prodName = none ∨
            ∀ nm, r.prodName = some nm → targetCode (String.mk (stripWs nm.data)) = none) →
        processProduct rows i = .ok none) := by
  constructor
  · intro r label h
    rcases h with h | h
    · unfold extractCat codeSelectNet
      by_cases hid : identityHas r label
      · have hn : ¬ 13 ≤ r.cells.length := by omega
        simp [hid, hn]
      · simp [hid]
    · simp [extractCat, h]
  · intro rows i h
    cases hg : rows[i]? with
    | none => simp [processProduct, hg]
    | some r =>
      cases hn : r.prodName with
      | none => simp [processProduct, hg, hn]
      | some nm =>
        rcases h r hg with h' | h'
        · rw [hn] at h'; cases h'
        · have := h' nm hn
          simp [processProduct, hg, hn, this]

/-- C8 witness: a one-cell row with a matching label yields no
observation, and a declaring row for an untracked product is skipped. -/
theorem c8_witness :
    extractCat shortRow "自營商" = .ok none ∧
      processProduct [oddProductRow] 0 = .ok none :=
  ⟨c8_row_skip_safety.1 shortRow "自營商" (Or.inl (by decide)),
   c8_row_skip_safety.2 [oddProductRow] 0 (by
      intro r hr
      have hr' : oddProductRow = r := by
        simpa using hr
      subst hr'
      right
      intro nm hnm
      have hnm' : "黃金期貨" = nm := by
        simpa [oddProductRow] using hnm
      subst hnm'
      decide)⟩

/-! ## Claim C1 — completeness gate -/

/-- C1 counterexample: `twoCatPage` contains, for the small-contract
product, a proprietary-desk row and a trust row but no foreign-
institution row (its third `12bk` row matches no known category), yet
`parse_html` emits one record for that product, with the unobserved
category defaulted to 0 — not the zero records the claim requires. -/
theorem c1_counterexample :
    identityHas exRow3 "外資" = false ∧
      parseHtml twoCatPage = .ok (⟨2025, 4, 18⟩, [twoCatDoc]) ∧
      twoCatDoc.foreign_net = 0 := by decide

/-! ## Claim C9 — determinism of the parse pass -/

/-- C9: the futures extraction is a pure function of the page — two
runs on the same input yield field-for-field equal dates and record
lists. -/
theorem c9_deterministic (p : Page) (d₁ d₂ : Date) (docs₁ docs₂ : List Doc)
    (h₁ : parseHtml p = .ok (d₁, docs₁)) (h₂ : parseHtml p = .ok (d₂, docs₂)) :
    d₁ = d₂ ∧ docs₁ = docs₂ := by
  rw [h₁] at h₂
  injection h₂ with h
  exact ⟨congrArg Prod.fst h, congrArg Prod.snd h⟩

/-- C9 witness at the concrete page. -/
theorem c9_witness :
    (⟨2025, 4, 18⟩ : Date) = ⟨2025, 4, 18⟩ ∧ [twoCatDoc] = [twoCatDoc] :=
  c9_deterministic twoCatPage _ _ _ _ (by decide) (by decide)

/-! ## Lemmas about the product-cell loop -/

/-- The residual invariant holds of every accumulator value a product
cell can produce: `retail_net` is built as the negated category sum. -/
lemma processProduct_vals {rows : List Row} {i : Nat} {nm : String} {v : Vals}
    (h : processProduct rows i = .ok (some (nm, v))) :
    v.retail_net + (v.prop_net + v.itf_net + v.foreign_net) = 0 := by
  unfold processProduct at h
  repeat' split at h
  all_goals try exact Except.noConfusion h
  all_goals try exact Option.noConfusion (Except.ok.inj h)
  have h2 := (Prod.mk.inj (Option.some.inj (Except.ok.inj h))).2
  rw [← h2]
  dsimp only
  omega

/-- A successfully processed declaring row of a tracked product always
produces an entry (never `none`), keyed by the stripped display name. -/
lemma processProduct_target_shape {rows : List Row} {i : Nat} {r : Row}
    {nm0 : String} {code : String} {o : Option (String × Vals)}
    (hr : rows[i]? = some r) (hn : r.prodName = some nm0)
    (hc : targetCode (String.mk (stripWs nm0.data)) = some code)
    (h : processProduct rows i = .ok o) :
    ∃ v, o = some (String.mk (stripWs nm0.data), v) := by
  unfold processProduct at h
  simp only [hr, hn, hc] at h
  repeat' split at h
  all_goals try exact Except.noConfusion h
  exact ⟨_, (Except.ok.inj h).symm⟩

/-- Membership after a Python-dict insertion. -/
lemma mem_dictInsert {kv : String × Vals} {nm : String} {v : Vals}
    {acc : List (String × Vals)} (h : kv ∈ dictInsert nm v acc) :
    kv ∈ acc ∨ kv.2 = v := by
  induction acc with
  | nil =>
    right
    have : kv = (nm, v) := by simpa [dictInsert] using h
    rw [this]
  | cons hd tl ih =>
    unfold dictInsert at h
    by_cases he : hd.1 = nm
    · rw [if_pos he] at h
      rcases List.mem_cons.mp h with h | h
      · right; rw [h]
      · exact Or.inl (List.mem_cons_of_mem _ h)
    · rw [if_neg he] at h
      rcases List.mem_cons.mp h with h | h
      · exact Or.inl (h ▸ List.mem_cons_self _ _)
      · rcases ih h with h | h
        · exact Or.inl (List.mem_cons_of_mem _ h)
        · exact Or.inr h

/-- The inserted key is present after a Python-dict insertion. -/
lemma dictInsert_mem_key (nm : String) (v : Vals) (acc : List (String × Vals)) :
    ∃ w, (nm, w) ∈ dictInsert nm v acc := by
  induction acc with
  | nil => exact ⟨v, List.mem_singleton.mpr rfl⟩
  | cons hd tl ih =>
    unfold dictInsert
    by_cases he : hd.1 = nm
    · refine ⟨v, ?_⟩
      rw [if_pos he, he]
      exact List.mem_cons_self _ _
    · obtain ⟨w, hw⟩ := ih
      refine ⟨w, ?_⟩
      rw [if_neg he]
      exact List.mem_cons_of_mem _ hw

/-- Existing keys survive a Python-dict insertion. -/
lemma dictInsert_keeps {k : String} {w : Vals} {nm : String} {v : Vals}
    {acc : List (String × Vals)} (h : (k, w) ∈ acc) :
    ∃ w', (k, w') ∈ dictInsert nm v acc := by
  induction acc with
  | nil => cases h
  | cons hd tl ih =>
    unfold dictInsert
    by_cases he : hd.1 = nm
    · rw [if_pos he]
      rcases List.mem_cons.mp h with h | h
      · refine ⟨v, ?_⟩
        have : hd.1 = k := by rw [← h]
        rw [this]
        exact List.mem_cons_self _ _
      · exact ⟨w, List.mem_cons_of_mem _ h⟩
    · rw [if_neg he]
      rcases List.mem_cons.mp h with h | h
      · exact ⟨w, h ▸ List.mem_cons_self _ _⟩
      · obtain ⟨w', hw'⟩ := ih h
        exact ⟨w', List.mem_cons_of_mem _ hw'⟩

/-- Keys in the accumulator survive the rest of the loop. -/
lemma processAll_keeps {rows : List Row} {idxs : List Nat} :
    ∀ {acc out : List (String × Vals)} {k : String} {w : Vals},
      processAll rows idxs acc = .ok out → (k, w) ∈ acc → ∃ w', (k, w') ∈ out := by
  induction idxs with
  | nil =>
    intro acc out k w h hm
    unfold processAll at h
    injection h with h
    exact ⟨w, h ▸ hm⟩
  | cons i rest ih =>
    intro acc out k w h hm
    unfold processAll at h
    cases hp : processProduct rows i with
    | error e => rw [hp] at h; cases h
    | ok o =>
      rw [hp] at h
      cases o with
      | none => exact ih h hm
      | some nv =>
        obtain ⟨nm, v⟩ := nv
        obtain ⟨w', hw'⟩ := @dictInsert_keeps _ _ nm v _ hm
        exact ih h hw'

/-- Every value in the loop's output satisfies a predicate that holds
of the initial accumulator's values and of every produced entry. -/
lemma processAll_valsOk {rows : List Row} {idxs : List Nat} :
    ∀ {acc out : List (String × Vals)},
      processAll rows idxs acc = .ok out →
      (∀ kv ∈ acc, kv.2.retail_net + (kv.2.prop_net + kv.2.itf_net + kv.2.foreign_net) = 0) →
      ∀ kv ∈ out, kv.2.retail_net + (kv.2.prop_net + kv.2.itf_net + kv.2.foreign_net) = 0 := by
  induction idxs with
  | nil =>
    intro acc out h hacc
    unfold processAll at h
    injection h with h
    exact h ▸ hacc
  | cons i rest ih =>
    intro acc out h hacc
    unfold processAll at h
    cases hp : processProduct rows i with
    | error e => rw [hp] at h; cases h
    | ok o =>
      rw [hp] at h
      cases o with
      | none => exact ih h hacc
      | some nv =>
        obtain ⟨nm, v⟩ := nv
        refine ih h ?_
        intro kv hkv
        rcases mem_dictInsert hkv with hkv | hkv
        · exact hacc kv hkv
        · rw [hkv]
          exact processProduct_vals hp

/-- If an index of the loop produces an entry and the loop succeeds,
the entry's key reaches the output. -/
lemma processAll_inserted {rows : List Row} {i : Nat} {idxs : List Nat} :
    ∀ {acc out : List (String × Vals)} {nm : String} {v : Vals},
      i ∈ idxs → processProduct rows i = .ok (some (nm, v)) →
      processAll rows idxs acc = .ok out → ∃ w, (nm, w) ∈ out := by
  induction idxs with
  | nil => intro _ _ _ _ hmem; cases hmem
  | cons j rest ih =>
    intro acc out nm v hmem hp h
    unfold processAll at h
    rcases List.mem_cons.mp hmem with heq | hmem'
    · subst heq
      rw [hp] at h
      obtain ⟨w, hw⟩ := dictInsert_mem_key nm v acc
      exact processAll_keeps h hw
    · cases hpj : processProduct rows j with
      | error e => rw [hpj] at h; cases h
      | ok o =>
        rw [hpj] at h
        cases o with
        | none => exact ih hmem' hp h
        | some nv =>
          obtain ⟨nm', v'⟩ := nv
          exact ih hmem' hp h

/-- If the loop succeeds, every visited index was itself processed
without an exception. -/
lemma processAll_proc_ok {rows : List Row} {i : Nat} {idxs : List Nat} :
    ∀ {acc out : List (String × Vals)},
      i ∈ idxs → processAll rows idxs acc = .ok out →
      ∃ o, processProduct rows i = .ok o := by
  induction idxs with
  | nil => intro _ _ hmem; cases hmem
  | cons j rest ih =>
    intro acc out hmem h
    unfold processAll at h
    cases hpj : processProduct rows j with
    | error e => rw [hpj] at h; cases h
    | ok o =>
      rcases List.mem_cons.mp hmem with heq | hmem'
      · exact heq ▸ ⟨o, hpj⟩
      · rw [hpj] at h
        cases o with
        | none => exact ih hmem' h
        | some nv =>
          obtain ⟨nm', v'⟩ := nv
          exact ih hmem' h

/-! ## Error classification -/

/-- The only exception a category block raises is `int()`'s
`ValueError`. -/
lemma extractCat_err {r : Row} {label : String} {e : ParseErr}
    (h : extractCat r label = .error e) : e = .badNumber := by
  unfold extractCat at h
  repeat' split at h
  all_goals try exact Except.noConfusion h
  exact (Except.error.inj h).symm

lemma extractForeign_err {rows : List Row} {j : Nat} {e : ParseErr}
    (h : extractForeign rows j = .error e) : e = .badNumber := by
  unfold extractForeign at h
  repeat' split at h
  all_goals try exact Except.noConfusion h
  rename_i e' heq
  exact (Except.error.inj h).symm.trans (extractCat_err heq)

/-- The product-cell loop body can only raise the `AttributeError` of a
missing follow-up row or `int()`'s `ValueError`. -/
lemma processProduct_err {rows : List Row} {i : Nat} {e : ParseErr}
    (h : processProduct rows i = .error e) : e = .attrNone ∨ e = .badNumber := by
  unfold processProduct at h
  repeat' split at h
  all_goals try exact Except.noConfusion h
  all_goals try exact Or.inl (Except.error.inj h).symm
  all_goals rename_i e' heq
  all_goals try exact Or.inr ((Except.error.inj h).symm.trans (extractCat_err heq))
  all_goals try exact Or.inr ((Except.error.inj h).symm.trans (extractForeign_err heq))

lemma processAll_err {rows : List Row} {idxs : List Nat} :
    ∀ {acc : List (String × Vals)} {e : ParseErr},
      processAll rows idxs acc = .error e → e = .attrNone ∨ e = .badNumber := by
  induction idxs with
  | nil =>
    intro acc e h
    unfold processAll at h
    exact Except.noConfusion h
  | cons i rest ih =>
    intro acc e h
    unfold processAll at h
    cases hp : processProduct rows i with
    | error e' =>
      rw [hp] at h
      exact (Except.error.inj h) ▸ processProduct_err hp
    | ok o =>
      rw [hp] at h
      cases o with
      | none => exact ih h
      | some nv =>
        obtain ⟨nm, v⟩ := nv
        exact ih h

/-- Inversion of a successful `parse_html` run. -/
lemma parseHtml_ok {p : Page} {d : Date} {docs : List Doc}
    (h : parseHtml p = .ok (d, docs)) :
    ∃ result, processAll p.rows (productIndices p.rows) [] = .ok result ∧
      docs = result.map fun nv => mkDoc d nv.1 nv.2 := by
  unfold parseHtml at h
  repeat' split at h
  all_goals try exact Except.noConfusion h
  rename_i result hres
  obtain ⟨h1, h2⟩ := Prod.mk.inj (Except.ok.inj h)
  exact ⟨result, hres, by rw [← h2, h1]⟩

/-! ## Claim C6 — date resolver -/

/-- C6: `parse_html` fails with the missing-date error exactly when the
labeled date pattern occurs nowhere in the page text; every other
outcome (success or a different exception) presupposes a match, and on
this failure no records are produced. -/
theorem c6_missing_date_iff (p : Page) :
    parseHtml p = .error .missingDate ↔ findDateCs p.html.data = none := by
  constructor
  · intro h
    unfold parseHtml at h
    repeat' split at h
    all_goals try (rename_i heq; exact heq)
    all_goals try exact Except.noConfusion h
    all_goals try exact absurd (Except.error.inj h) (by decide)
    rename_i e' heq
    have he := Except.error.inj h
    rcases processAll_err heq with h' | h' <;>
      (rw [he] at h'; exact ParseErr.noConfusion h')
  · intro h
    unfold parseHtml
    rw [h]

/-- C6 witness: a page whose text has a bare date but no `日期` label is
rejected with the missing-date error. -/
theorem c6_witness : parseHtml noDatePage = .error .missingDate :=
  (c6_missing_date_iff noDatePage).mpr (by decide)

/-! ## Claim C2 — residual invariant -/

/-- C2: every record `parse_html` emits satisfies
`retail_net + (prop_net + itf_net + foreign_net) = 0`. -/
theorem c2_residual_invariant (p : Page) (d : Date) (docs : List Doc) (doc : Doc)
    (h : parseHtml p = .ok (d, docs)) (hm : doc ∈ docs) :
    doc.retail_net + (doc.prop_net + doc.itf_net + doc.foreign_net) = 0 := by
  obtain ⟨result, hres, hdocs⟩ := parseHtml_ok h
  rw [hdocs] at hm
  obtain ⟨nv, hnv, hdoc⟩ := List.mem_map.mp hm
  have hv := processAll_valsOk hres (by intro kv hkv; cases hkv) nv hnv
  rw [← hdoc]
  simpa [mkDoc] using hv

/-- C2 witness at the concrete page. -/
theorem c2_witness :
    twoCatDoc.retail_net +
      (twoCatDoc.prop_net + twoCatDoc.itf_net + twoCatDoc.foreign_net) = 0 :=
  c2_residual_invariant twoCatPage ⟨2025, 4, 18⟩ [twoCatDoc] twoCatDoc
    (by decide) (by decide)

/-- C1 amended: there is no completeness gate — whenever `parse_html`
succeeds, every declaring row of a tracked product yields a record for
that product, however many of the three category rows were observed
(unobserved categories default to 0, as the counterexample shows). -/
theorem c1_amended_no_gate (p : Page) (d : Date) (docs : List Doc)
    (i : Nat) (r : Row) (nm : String) (code : String)
    (h : parseHtml p = .ok (d, docs)) (hr : p.rows[i]? = some r)
    (hp : r.prodTd = true) (hn : r.prodName = some nm)
    (hc : targetCode (String.mk (stripWs nm.data)) = some code) :
    ∃ doc ∈ docs, doc.product = code := by
  obtain ⟨result, hres, hdocs⟩ := parseHtml_ok h
  have hi : i ∈ productIndices p.rows := by
    unfold productIndices
    refine List.mem_filter.mpr ⟨List.mem_range.mpr ?_, ?_⟩
    · by_contra hlt
      have hnone : p.rows[i]? = none := List.getElem?_eq_none (by omega)
      rw [hnone] at hr
      cases hr
    · simp only [hr]
      exact hp
  obtain ⟨o, ho⟩ := processAll_proc_ok hi hres
  obtain ⟨v, hv⟩ := processProduct_target_shape hr hn hc ho
  rw [hv] at ho
  obtain ⟨w, hw⟩ := processAll_inserted hi ho hres
  refine ⟨mkDoc d (String.mk (stripWs nm.data)) w, ?_, ?_⟩
  · rw [hdocs]
    exact List.mem_map_of_mem _ hw
  · simp [mkDoc, hc]

/-- C1 amended witness: the two-category page still emits the
small-contract record. -/
theorem c1_witness : ∃ doc ∈ [twoCatDoc], doc.product = "mtx" :=
  c1_amended_no_gate twoCatPage ⟨2025, 4, 18⟩ [twoCatDoc] 0 exRow1
    "小型臺指期貨" "mtx" (by decide) (by decide) (by decide) (by decide) (by decide)

/-! ## Lemmas about the ratio pipeline -/

lemma mapEx_ok_forall {α β ε : Type} {f : α → Except ε β} {l : List α} {out : List β}
    (h : mapEx f l = .ok out) : ∀ x ∈ l, ∃ y, f x = .ok y := by
  induction l generalizing out with
  | nil => intro x hx; cases hx
  | cons a t ih =>
    intro x hx
    unfold mapEx at h
    cases hfa : f a with
    | error e => rw [hfa] at h; exact Except.noConfusion h
    | ok y =>
      rw [hfa] at h
      cases hmt : mapEx f t with
      | error e => rw [hmt] at h; exact Except.noConfusion h
      | ok ys =>
        rw [hmt] at h
        rcases List.mem_cons.mp hx with rfl | hx'
        · exact ⟨y, hfa⟩
        · exact ih hmt x hx'

lemma reqNum_ok {cs : List Char} {q : NumVal} (h : reqNum cs = .ok q) :
    pyToNumeric cs = some q := by
  unfold reqNum at h
  cases hc : pyToNumeric cs with
  | none => rw [hc] at h; exact Except.noConfusion h
  | some q' =>
    rw [hc] at h
    exact congrArg some (Except.ok.inj h)

/-- Padding a row that already has the target length is the identity. -/
lemma padRow_self {n : Nat} {r : List (List Char)} (h : r.length = n) :
    padRow n r = r := by
  unfold padRow
  rw [h, Nat.sub_self, List.replicate_zero, List.append_nil]

lemma readCsv_ok {sep : Sep} {dataLines : List (List Char)}
    {rows : List (List (List Char))} (h : readCsv sep dataLines = .ok rows) :
    rows = (dataLines.map (splitRow sep)).map
      (padRow ((dataLines.map (splitRow sep)).headD []).length) := by
  unfold readCsv at h
  split at h
  · exact (Except.ok.inj h).symm
  · exact Except.noConfusion h

/-- A row that normalizes successfully has exactly seven fields, and
each of its six value fields coerces. -/
lemma normalizeRow_ok {row : List (List Char)} {rec : RatioRec}
    (h : normalizeRow row = .ok rec) :
    row.length = 7 ∧ ∀ f ∈ row.drop 1, ∃ q, pyToNumeric f = some q := by
  unfold normalizeRow at h
  repeat' split at h
  all_goals try exact Except.noConfusion h
  rename_i x1 v1 h1 x2 v2 h2 x3 v3 h3 x4 v4 h4 x5 v5 h5 x6 v6 h6
  refine ⟨rfl, ?_⟩
  intro f hf
  simp only [List.drop, List.mem_cons, List.not_mem_nil, or_false] at hf
  rcases hf with rfl | rfl | rfl | rfl | rfl | rfl
  · exact ⟨v1, reqNum_ok h1⟩
  · exact ⟨v2, reqNum_ok h2⟩
  · exact ⟨v3, reqNum_ok h3⟩
  · exact ⟨v4, reqNum_ok h4⟩
  · exact ⟨v5, reqNum_ok h5⟩
  · exact ⟨v6, reqNum_ok h6⟩

/-! ## Claim C5 — ratio-table strictness -/

/-- C5 counterexample: the located data line
`2025/04/18,100,NA,0.5,300,400,0.75` has a `call_volume` field that is
not an integer or decimal numeral, yet the pipeline raises no
malformed-row error — `read_csv` reads the NA token as NaN,
`to_numeric` passes NaN through, and one record is emitted with NaN in
that field: a best-effort partial record. -/
theorem c5_counterexample :
    parseUnsignedDec ("NA").data = none ∧
      parseCsvPipeline naCsv =
        .ok [⟨⟨2025, 4, 18⟩, .num ⟨100, 1⟩, .nan, .num ⟨5, 10⟩,
             .num ⟨300, 1⟩, .num ⟨400, 1⟩, .num ⟨75, 100⟩⟩] := by decide

/-- C5 amended (stated as the contrapositive of "fails whenever
malformed"): whenever the pipeline succeeds, the located data line
split into exactly seven fields, and each of its six numeric fields
either was a missing-value token — read as NaN, which survives
coercion and is stored in the record — or parsed as a signed decimal.
A wrong field count on the located line, a later row with more fields,
or a non-missing non-numeric field still fails the whole extraction,
but missing-value fields do not: the pipeline then emits a NaN-bearing
partial record, as the counterexample shows. -/
theorem c5_amended_strict_or_na (text : List Char) (recs : List RatioRec)
    (sample : List Char) (rest : List (List Char))
    (hloc : locateFrom (prepLines text) = .ok (sample :: rest))
    (hok : parseCsvPipeline text = .ok recs) :
    (splitRow (sepOf sample) sample).length = 7 ∧
      ∀ f ∈ (splitRow (sepOf sample) sample).drop 1, ∃ v, pyToNumeric f = some v := by
  unfold parseCsvPipeline at hok
  rw [hloc] at hok
  have hok2 : csvStage2 (sample :: rest) = .ok recs := hok
  unfold csvStage2 at hok2
  simp only [List.headD_cons] at hok2
  cases hrc : readCsv (sepOf sample) (sample :: rest) with
  | error e => rw [hrc] at hok2; exact Except.noConfusion hok2
  | ok rows =>
  rw [hrc] at hok2
  have hrows := readCsv_ok hrc
  have hhead : rows.headD [] = splitRow (sepOf sample) sample := by
    rw [hrows]
    simp only [List.map_cons, List.headD_cons]
    exact padRow_self rfl
  have hmem : splitRow (sepOf sample) sample ∈ rows := by
    rw [hrows]
    simp only [List.map_cons, List.headD_cons]
    rw [padRow_self rfl]
    exact List.mem_cons_self _ _
  by_cases h7 : (rows.headD []).length = 7
  · have hmap : mapEx normalizeRow rows = .ok recs := by
      have : (if (rows.headD []).length = 7 then mapEx normalizeRow rows
              else Except.error .badShape) = .ok recs := hok2
      rwa [if_pos h7] at this
    obtain ⟨rec, hrec⟩ := mapEx_ok_forall hmap _ hmem
    rw [hhead] at h7
    exact ⟨h7, (normalizeRow_ok hrec).2⟩
  · exfalso
    have : (if (rows.headD []).length = 7 then mapEx normalizeRow rows
            else Except.error .badShape) = .ok recs := hok2
    rw [if_neg h7] at this
    exact Except.noConfusion this

/-- C5 witness at a well-formed single-data-line CSV. -/
theorem c5_witness :
    (splitRow (sepOf ("2025/04/18,100,200,0.5,300,400,0.75").data)
        ("2025/04/18,100,200,0.5,300,400,0.75").data).length = 7 ∧
      ∀ f ∈ (splitRow (sepOf ("2025/04/18,100,200,0.5,300,400,0.75").data)
          ("2025/04/18,100,200,0.5,300,400,0.75").data).drop 1,
        ∃ v, pyToNumeric f = some v :=
  c5_amended_strict_or_na goodCsv
    [⟨⟨2025, 4, 18⟩, .num ⟨100, 1⟩, .num ⟨200, 1⟩, .num ⟨5, 10⟩,
      .num ⟨300, 1⟩, .num ⟨400, 1⟩, .num ⟨75, 100⟩⟩]
    ("2025/04/18,100,200,0.5,300,400,0.75").data [] (by decide) (by decide)

/-! ## Claim C7 — neutral exit signaling -/

/-- C7: when the newest parsed trade date is older than the expected
trading date, `fetch` terminates through the dedicated neutral exit
status 75 — distinct from the hard-failure status — and upserts
nothing. -/
theorem c7_neutral_exit (recs : List RatioRec) (today : Date) (upsert : Bool)
    (h : dateLt (latestDate recs) today = true) :
    fetchAfterParse recs today upsert = .neutralExit neutralExitCode ∧
      writtenOf (fetchAfterParse recs today upsert) = [] ∧
      neutralExitCode ≠ hardFailureCode := by
  unfold fetchAfterParse
  rw [if_pos h]
  exact ⟨rfl, rfl, by decide⟩

/-- C7 witness: yesterday's record against today's date. -/
theorem c7_witness :
    fetchAfterParse [wRatioRec] ⟨2025, 4, 18⟩ true = .neutralExit neutralExitCode ∧
      writtenOf (fetchAfterParse [wRatioRec] ⟨2025, 4, 18⟩ true) = [] ∧
      neutralExitCode ≠ hardFailureCode :=
  c7_neutral_exit [wRatioRec] ⟨2025, 4, 18⟩ true (by decide)

end Taifex
